import Mathlib

/-
Verification development for the squad-recommendation optimizer
(backend/app/api/routes/recommendations.py).

The optimizer is embedded shallowly:
* a candidate row (Prediction, Player, Team) is a `Candidate` record carrying
  exactly the fields the optimizer reads: player id, team id, position string,
  now_cost (integer tenths of a million) and predicted points;
* float money amounts are modelled as exact rationals: cost_m = now_cost / 10,
  and the numeric tolerance 1e-9 is the rational 1 / 10^9;
* the Python dicts `team_counts`, `total_have`, `starting_have` are modelled as
  total functions with default value 0 (the code only ever reads them through
  `.get(k, 0)`, and entries are deleted exactly when they reach 0, so the
  function view is observationally exact); the set `selected_player_ids` is a
  list of ids used as a set;
* in-place mutation with rollback (`_try_pick_one`) is modelled by explicit
  `commitPick` / `rollbackPick` state transformers threaded through a
  recursive scan of the ordered bucket;
* the `while` loops of `_pick_starting_xi` / `_pick_bench` are modelled by
  fuel recursion with the exact guard ceilings 2000 and 3000;
* `datetime.now()` is an explicit timestamp argument attached to the response.
-/

namespace FplRec

inductive Pos where
  | GKP
  | DEF
  | MID
  | FWD
deriving DecidableEq, Repr, Fintype

def posStr : Pos → String
  | .GKP => "GKP"
  | .DEF => "DEF"
  | .MID => "MID"
  | .FWD => "FWD"

/-- The four roles in the insertion order of the Python dicts
`SQUAD_RULES` / `STARTING_FORMATION` / bucket dicts: GKP, DEF, MID, FWD. -/
def allPos : List Pos := [Pos.GKP, Pos.DEF, Pos.MID, Pos.FWD]

/-- OrderBy = Literal["points", "value"]. -/
inductive OrderBy where
  | points
  | value
deriving DecidableEq, Repr

/-- SQUAD_RULES: 2 GKP / 5 DEF / 5 MID / 3 FWD. -/
def squadRules : Pos → ℕ
  | .GKP => 2
  | .DEF => 5
  | .MID => 5
  | .FWD => 3

/-- STARTING_FORMATION: 1 GKP / 3 DEF / 4 MID / 3 FWD. -/
def startingFormation : Pos → ℕ
  | .GKP => 1
  | .DEF => 3
  | .MID => 4
  | .FWD => 3

/-- POSITION_CYCLE = ["FWD", "MID", "DEF", "GKP"]. -/
def positionCycle : List Pos := [Pos.FWD, Pos.MID, Pos.DEF, Pos.GKP]

/-- One joined candidate row (Prediction, Player, Team), restricted to the
fields the optimizer reads. `position` is the raw string from the Player row
(the four-role enum is NOT enforced here, mirroring the code). `now_cost` is
a non-negative integer (FPL tenth-of-a-million units). -/
structure Candidate where
  id : ℕ
  teamId : ℕ
  position : String
  nowCost : ℕ
  points : ℚ
deriving DecidableEq, Repr

/-- The numeric tolerance 1e-9 used in budget comparisons. -/
def eps : ℚ := 1 / 1000000000

/-- Model of _calc_cost_m: now_cost 80 => 8.0m. -/
def calcCostM (nowCost : ℕ) : ℚ := (nowCost : ℚ) / 10

def costM (c : Candidate) : ℚ := calcCostM c.nowCost

/-- Model of _calc_value: predicted points per million, denominator floored at 0.1. -/
def calcValue (predictedPoints : ℚ) (cost : ℚ) : ℚ :=
  predictedPoints / (if 0 < cost then cost else 1 / 10)

/-- Model of _build_candidate_buckets: a row lands in the bucket whose key equals its
position string; rows with any other position string land nowhere. -/
def buildCandidateBuckets (rows : List Candidate) : Pos → List Candidate :=
  fun p => rows.filter fun c => c.position = posStr p

/-- Model of _group_by_position (same grouping, applied to final picks). -/
def groupByPosition (rows : List Candidate) : Pos → List Candidate :=
  fun p => rows.filter fun c => c.position = posStr p

/-- Lexicographic (non-strict) order on the 4-component sort keys. -/
def key4Le (x y : ℚ × ℤ × ℤ × ℤ) : Prop :=
  x.1 < y.1 ∨ x.1 = y.1 ∧
    (x.2.1 < y.2.1 ∨ x.2.1 = y.2.1 ∧
      (x.2.2.1 < y.2.2.1 ∨ x.2.2.1 = y.2.2.1 ∧ x.2.2.2 ≤ y.2.2.2))

instance key4LeDec (x y : ℚ × ℤ × ℤ × ℤ) : Decidable (key4Le x y) := by
  unfold key4Le
  exact inferInstance

/-- Lexicographic (non-strict) order on the 2-component sort keys. -/
def key2Le (x y : ℚ × ℚ) : Prop :=
  x.1 < y.1 ∨ x.1 = y.1 ∧ x.2 ≤ y.2

instance key2LeDec (x y : ℚ × ℚ) : Decidable (key2Le x y) := by
  unfold key2Le
  exact inferInstance

/-- Sort key of the "points" strategy:
(predicted_points, -now_cost, -team_id, -player_id). -/
def pointsKey (c : Candidate) : ℚ × ℤ × ℤ × ℤ :=
  (c.points, -(c.nowCost : ℤ), -(c.teamId : ℤ), -(c.id : ℤ))

/-- Holds when `a` may come no later than `b` under Python
`sorted(key=pointsKey, reverse=True)`: the key of `b` is lexicographically at
most the key of `a`. -/
def pointsLeB (a b : Candidate) : Bool :=
  decide (key4Le (pointsKey b) (pointsKey a))

/-- Sort key of the "value" strategy: (value, predicted_points). -/
def valueKey (c : Candidate) : ℚ × ℚ :=
  (calcValue c.points (costM c), c.points)

def valueLeB (a b : Candidate) : Bool :=
  decide (key2Le (valueKey b) (valueKey a))

/-- Plain ascending comparison on rational costs (Python list.sort()). -/
def ratLeB (a b : ℚ) : Bool := decide (a ≤ b)

/-- Model of _sort_bucket: stable descending sort by the strategy's key.  Python's
stable `sorted(..., reverse=True)` keeps the original relative order of
key-equal rows and otherwise puts larger keys first; `mergeSort` with the
reversed non-strict key comparison has exactly this behaviour. -/
def sortBucket (bucket : List Candidate) (orderBy : OrderBy) : List Candidate :=
  match orderBy with
  | .points => bucket.mergeSort pointsLeB
  | .value => bucket.mergeSort valueLeB

/-- Model of _remaining_needed: max 0 (required - have), i.e. truncated subtraction. -/
def remainingNeeded (required haveCnt : Pos → ℕ) : Pos → ℕ :=
  fun p => required p - haveCnt p

/-- The candidates of bucket `p` that are still pickable: not already
selected, and their team is below the cap.  This is the common exclusion
filter of the quantity check and of _sum_cheapest_cost_m. -/
def availList (buckets : Pos → List Candidate) (selected : List ℕ)
    (teamCounts : ℕ → ℕ) (maxPerTeam : ℕ) (p : Pos) : List Candidate :=
  (buckets p).filter fun c =>
    !(selected.contains c.id) && decide (teamCounts c.teamId < maxPerTeam)

/-- Model of _sum_cheapest_cost_m: sum of the k cheapest still-available costs of the
bucket, `none` when fewer than k remain (0 for k = 0). -/
def sumCheapestCostM (p : Pos) (k : ℕ) (buckets : Pos → List Candidate)
    (selected : List ℕ) (teamCounts : ℕ → ℕ) (maxPerTeam : ℕ) : Option ℚ :=
  if k = 0 then some 0
  else
    let costs := (availList buckets selected teamCounts maxPerTeam p).map costM
    if costs.length < k then none
    else some (((costs.mergeSort ratLeB).take k).sum)

/-- The `min_possible` accumulation of _can_complete_squad over a role list:
adds each role's cheapest-k sum, `none` as soon as one role has too few
available candidates.  (The Python loop accumulates a float running sum in
dict order; rational addition is exact, so the grouping does not matter.) -/
def minPossibleCost (needed : Pos → ℕ) (buckets : Pos → List Candidate)
    (selected : List ℕ) (teamCounts : ℕ → ℕ) (maxPerTeam : ℕ) :
    List Pos → Option ℚ
  | [] => some 0
  | p :: ps =>
    match sumCheapestCostM p (needed p) buckets selected teamCounts maxPerTeam,
        minPossibleCost needed buckets selected teamCounts maxPerTeam ps with
    | some s, some t => some (s + t)
    | _, _ => none

/-- Model of _can_complete_squad: quantity check (team cap applied) for every role,
then the cheapest-possible lower-bound budget check with tolerance 1e-9. -/
def canCompleteSquad (remainingBudget : ℚ) (remainingNeededTotal : Pos → ℕ)
    (buckets : Pos → List Candidate) (selected : List ℕ)
    (teamCounts : ℕ → ℕ) (maxPerTeam : ℕ) : Bool :=
  (allPos.all fun p =>
    decide (remainingNeededTotal p ≤
      (availList buckets selected teamCounts maxPerTeam p).length)) &&
  (match minPossibleCost remainingNeededTotal buckets selected teamCounts
      maxPerTeam allPos with
    | none => false
    | some m => decide (m ≤ remainingBudget + eps))

/-- The mutable selection state of one in-progress build. -/
structure SelState where
  selected : List ℕ
  teamCounts : ℕ → ℕ
  totalHave : Pos → ℕ
  startingHave : Pos → ℕ

/-- The speculative commit of _try_pick_one: add the id, bump the team count,
bump the position total and (in the starting phase) the starting count. -/
def commitPick (st : SelState) (pos : Pos) (c : Candidate)
    (startingPhase : Bool) : SelState where
  selected := c.id :: st.selected
  teamCounts := Function.update st.teamCounts c.teamId (st.teamCounts c.teamId + 1)
  totalHave := Function.update st.totalHave pos (st.totalHave pos + 1)
  startingHave :=
    if startingPhase then
      Function.update st.startingHave pos (st.startingHave pos + 1)
    else st.startingHave

/-- The rollback of _try_pick_one: remove the id and decrement the same
counters.  (The Python `del` of a zero entry is invisible through
`.get(k, 0)`, so plain decrement is an exact model.) -/
def rollbackPick (st : SelState) (pos : Pos) (c : Candidate)
    (startingPhase : Bool) : SelState where
  selected := st.selected.erase c.id
  teamCounts := Function.update st.teamCounts c.teamId (st.teamCounts c.teamId - 1)
  totalHave := Function.update st.totalHave pos (st.totalHave pos - 1)
  startingHave :=
    if startingPhase then
      Function.update st.startingHave pos (st.startingHave pos - 1)
    else st.startingHave

/-- The scan of _try_pick_one over the ordered bucket: skip already-selected ids,
capped teams and unaffordable costs; speculatively commit the first surviving
candidate, keep it when the oracle approves, otherwise roll back and go on. -/
def tryPickLoop (pos : Pos) (maxPerTeam : ℕ) (remainingBudget : ℚ)
    (totalRequired : Pos → ℕ) (startingRequired : Option (Pos → ℕ))
    (bucketsAll : Pos → List Candidate) :
    List Candidate → SelState → Option Candidate × SelState
  | [], st => (none, st)
  | c :: rest, st =>
    if c.id ∈ st.selected then
      tryPickLoop pos maxPerTeam remainingBudget totalRequired startingRequired
        bucketsAll rest st
    else if maxPerTeam ≤ st.teamCounts c.teamId then
      tryPickLoop pos maxPerTeam remainingBudget totalRequired startingRequired
        bucketsAll rest st
    else if remainingBudget + eps < costM c then
      tryPickLoop pos maxPerTeam remainingBudget totalRequired startingRequired
        bucketsAll rest st
    else
      let st1 := commitPick st pos c startingRequired.isSome
      if canCompleteSquad (remainingBudget - costM c)
          (remainingNeeded totalRequired st1.totalHave) bucketsAll
          st1.selected st1.teamCounts maxPerTeam then
        (some c, st1)
      else
        tryPickLoop pos maxPerTeam remainingBudget totalRequired startingRequired
          bucketsAll rest (rollbackPick st1 pos c startingRequired.isSome)

def posFullTotalMsg (p : Pos) : String :=
  "Position=" ++ posStr p ++ " already full for total squad."

def posFullStartingMsg (p : Pos) : String :=
  "Position=" ++ posStr p ++ " already full for starting XI."

def noFeasibleMsg (p : Pos) : String :=
  "No feasible candidate for position=" ++ posStr p ++ " under current constraints."

/-- Model of _try_pick_one.  Returns (picked candidate?, state after the call,
reason when nothing was picked). -/
def tryPickOne (pos : Pos) (orderedBucket : List Candidate) (st : SelState)
    (maxPerTeam : ℕ) (remainingBudget : ℚ) (totalRequired : Pos → ℕ)
    (startingRequired : Option (Pos → ℕ)) (bucketsAll : Pos → List Candidate) :
    Option Candidate × SelState × Option String :=
  if totalRequired pos ≤ st.totalHave pos then
    (none, st, some (posFullTotalMsg pos))
  else if (match startingRequired with
      | some sr => decide (sr pos ≤ st.startingHave pos)
      | none => false) then
    (none, st, some (posFullStartingMsg pos))
  else
    match tryPickLoop pos maxPerTeam remainingBudget totalRequired
        startingRequired bucketsAll orderedBucket st with
    | (some c, st1) => (some c, st1, none)
    | (none, st1) => (none, st1, some (noFeasibleMsg pos))

/-- The working accumulator of the two picking loops: selection state, picks
in pick order, remaining budget, diagnostic reasons. -/
structure XIAcc where
  st : SelState
  picked : List Candidate
  remaining : ℚ
  reasons : List String

/-- Reasons are kept only while fewer than 6 have accumulated. -/
def addReason (reasons : List String) (msg : String) : List String :=
  if reasons.length < 6 then reasons ++ [msg] else reasons

def metricStr : OrderBy → String
  | .points => "points"
  | .value => "value"

def guardStartingMsg : String :=
  "Guard hit while building starting XI (unexpected loop)."

def stuckStartingMsg : String :=
  "Cannot progress while building starting XI. Try relaxing filters."

def guardBenchMsg : String :=
  "Guard hit while building bench (unexpected loop)."

def stuckBenchMsg : String :=
  "Cannot progress while building bench. Try relaxing filters."

/-- One position of one pass of the starting-XI loop. -/
def startingPassStep (buckets ordered : Pos → List Candidate)
    (totalRequired startingRequired : Pos → ℕ) (maxPerTeam : ℕ)
    (metric : OrderBy) (acc : XIAcc × Bool) (pos : Pos) : XIAcc × Bool :=
  let a := acc.1
  if startingRequired pos ≤ a.st.startingHave pos then acc
  else
    match tryPickOne pos (ordered pos) a.st maxPerTeam a.remaining
        totalRequired (some startingRequired) buckets with
    | (some c, st1, _) =>
      ({ st := st1
         picked := a.picked ++ [c]
         remaining := a.remaining - costM c
         reasons := a.reasons }, true)
    | (none, st1, err) =>
      ({ a with
         st := st1
         reasons := (match err with
           | some m =>
             addReason a.reasons ("[starting:" ++ metricStr metric ++ "] " ++ m)
           | none => a.reasons) }, acc.2)

def startingDoneB (startingRequired : Pos → ℕ) (st : SelState) : Bool :=
  allPos.all fun p => decide (startingRequired p ≤ st.startingHave p)

/-- The while-loop of _pick_starting_xi, fuel = remaining allowed iterations
(2000 in the code). -/
def pickStartingXILoop (buckets op ov : Pos → List Candidate)
    (totalRequired startingRequired : Pos → ℕ) (maxPerTeam : ℕ) :
    ℕ → ℕ → XIAcc → XIAcc
  | 0, _, acc =>
    if startingDoneB startingRequired acc.st then acc
    else { acc with reasons := acc.reasons ++ [guardStartingMsg] }
  | fuel + 1, cycle, acc =>
    if startingDoneB startingRequired acc.st then acc
    else
      let metric : OrderBy := if cycle % 2 = 0 then .points else .value
      let ordered := if cycle % 2 = 0 then op else ov
      let step := positionCycle.foldl
        (startingPassStep buckets ordered totalRequired startingRequired
          maxPerTeam metric) (acc, false)
      if step.2 then
        pickStartingXILoop buckets op ov totalRequired startingRequired
          maxPerTeam fuel (cycle + 1) step.1
      else { step.1 with reasons := addReason step.1.reasons stuckStartingMsg }

/-- Model of _pick_starting_xi. -/
def pickStartingXI (buckets : Pos → List Candidate) (budget : ℚ)
    (maxPerTeam : ℕ) (totalRequired startingRequired : Pos → ℕ) : XIAcc :=
  pickStartingXILoop buckets
    (fun p => sortBucket (buckets p) OrderBy.points)
    (fun p => sortBucket (buckets p) OrderBy.value)
    totalRequired startingRequired maxPerTeam 2000 0
    { st := ⟨[], fun _ => 0, fun _ => 0, fun _ => 0⟩
      picked := []
      remaining := budget
      reasons := [] }

/-- One position of one pass of the bench loop ("value" metric only). -/
def benchPassStep (buckets ov : Pos → List Candidate)
    (totalRequired : Pos → ℕ) (maxPerTeam : ℕ) (acc : XIAcc × Bool)
    (pos : Pos) : XIAcc × Bool :=
  let a := acc.1
  if totalRequired pos ≤ a.st.totalHave pos then acc
  else
    match tryPickOne pos (ov pos) a.st maxPerTeam a.remaining totalRequired
        none buckets with
    | (some c, st1, _) =>
      ({ st := st1
         picked := a.picked ++ [c]
         remaining := a.remaining - costM c
         reasons := a.reasons }, true)
    | (none, st1, err) =>
      ({ a with
         st := st1
         reasons := (match err with
           | some m => addReason a.reasons ("[bench:value] " ++ m)
           | none => a.reasons) }, acc.2)

def benchDoneB (totalRequired : Pos → ℕ) (st : SelState) : Bool :=
  allPos.all fun p => decide (totalRequired p ≤ st.totalHave p)

/-- The while-loop of _pick_bench, fuel 3000. -/
def pickBenchLoop (buckets ov : Pos → List Candidate)
    (totalRequired : Pos → ℕ) (maxPerTeam : ℕ) : ℕ → XIAcc → XIAcc
  | 0, acc =>
    if benchDoneB totalRequired acc.st then acc
    else { acc with reasons := acc.reasons ++ [guardBenchMsg] }
  | fuel + 1, acc =>
    if benchDoneB totalRequired acc.st then acc
    else
      let step := allPos.foldl
        (benchPassStep buckets ov totalRequired maxPerTeam) (acc, false)
      if step.2 then
        pickBenchLoop buckets ov totalRequired maxPerTeam fuel step.1
      else { step.1 with reasons := addReason step.1.reasons stuckBenchMsg }

/-- Model of _pick_bench: continues with the starting phase's team and position
counters; the selected-id set is rebuilt from the starting rows. -/
def pickBench (buckets : Pos → List Candidate)
    (alreadySelected : List Candidate) (remainingBudget : ℚ)
    (teamCounts : ℕ → ℕ) (totalHave : Pos → ℕ) (totalRequired : Pos → ℕ)
    (maxPerTeam : ℕ) : XIAcc :=
  pickBenchLoop buckets (fun p => sortBucket (buckets p) OrderBy.value)
    totalRequired maxPerTeam 3000
    { st := ⟨alreadySelected.map Candidate.id, teamCounts, totalHave,
        fun _ => 0⟩
      picked := []
      remaining := remainingBudget
      reasons := [] }

/-- Number of rows with the given role's position string. -/
def countPos (rows : List Candidate) (p : Pos) : ℕ :=
  (rows.filter fun c => c.position = posStr p).length

/-- Number of rows with the given team id. -/
def countTeam (rows : List Candidate) (t : ℕ) : ℕ :=
  (rows.filter fun c => c.teamId = t).length

/-- Total cost (in millions) of a list of rows. -/
def costSum (rows : List Candidate) : ℚ := (rows.map costM).sum

/-- Keys of a Python dict in insertion order: first occurrences, in order.
A team enters `team_counts` at its first kept commit and is deleted exactly
when a speculative commit that created its entry is rolled back, so the dict's
key order equals first-occurrence order over the committed picks. -/
def firstOccurs (l : List ℕ) : List ℕ :=
  l.foldl (fun acc t => if t ∈ acc then acc else acc ++ [t]) []

/-- Model of _flatten_pos_dict over a grouped payload: GKP ++ DEF ++ MID ++ FWD. -/
def flattenGrouped (rows : List Candidate) : List Candidate :=
  groupByPosition rows Pos.GKP ++ groupByPosition rows Pos.DEF ++
    groupByPosition rows Pos.MID ++ groupByPosition rows Pos.FWD

/-- Model of _build_bench_list: slot 0 = first bench GKP if any, then the outfield
bench players DEF -> MID -> FWD, truncated to 4 slots in total. -/
def buildBenchList (gk defL midL fwdL : List Candidate) : List Candidate :=
  let benchGk := gk.take 1
  let outfield := defL ++ midL ++ fwdL
  benchGk ++ outfield.take (4 - benchGk.length)

/-- Model of _tag: attach role and 1-based slot index. -/
def tagRole (role : String) (items : List Candidate) :
    List (String × ℕ × Candidate) :=
  items.enum.map fun ic => (role, ic.1 + 1, ic.2)

/-- The data of one successful build response (candidate rows stand in for
their compact/full serializations, which are injective projections of them;
`spentM`/`remainingM` are the exact amounts, rounded only for display). -/
structure SuccessBody where
  startingGKP : List Candidate
  startingDEF : List Candidate
  startingMID : List Candidate
  startingFWD : List Candidate
  benchGKP : List Candidate
  benchDEF : List Candidate
  benchMID : List Candidate
  benchFWD : List Candidate
  benchList : List Candidate
  squadList : List (String × ℕ × Candidate)
  spentM : ℚ
  remainingM : ℚ
  teamCountsOut : List (ℕ × ℕ)
  squadCounts : List (Pos × ℕ)
deriving DecidableEq, Repr

instance : Inhabited SuccessBody :=
  ⟨⟨[], [], [], [], [], [], [], [], [], [], 0, 0, [], []⟩⟩

/-- The success payload as assembled by recommend_squad from the starting
rows, the bench rows and the final state. -/
def mkSuccessBody (budget : ℚ) (sRows bRows : List Candidate)
    (stFin : SelState) (remFin : ℚ) : SuccessBody where
  startingGKP := groupByPosition sRows Pos.GKP
  startingDEF := groupByPosition sRows Pos.DEF
  startingMID := groupByPosition sRows Pos.MID
  startingFWD := groupByPosition sRows Pos.FWD
  benchGKP := groupByPosition bRows Pos.GKP
  benchDEF := groupByPosition bRows Pos.DEF
  benchMID := groupByPosition bRows Pos.MID
  benchFWD := groupByPosition bRows Pos.FWD
  benchList := buildBenchList (groupByPosition bRows Pos.GKP)
    (groupByPosition bRows Pos.DEF) (groupByPosition bRows Pos.MID)
    (groupByPosition bRows Pos.FWD)
  squadList :=
    tagRole "starting" (flattenGrouped sRows) ++
      tagRole "bench" (buildBenchList (groupByPosition bRows Pos.GKP)
        (groupByPosition bRows Pos.DEF) (groupByPosition bRows Pos.MID)
        (groupByPosition bRows Pos.FWD))
  spentM := budget - remFin
  remainingM := remFin
  teamCountsOut := (firstOccurs ((sRows ++ bRows).map Candidate.teamId)).map
    fun t => (t, stFin.teamCounts t)
  squadCounts := allPos.map fun p => (p, countPos (sRows ++ bRows) p)

/-- The body of a /recommendations/squad response (the fields that vary with
the pool and the parameters; echo fields of the request are omitted). -/
inductive ResponseBody where
  | insufficient (missingByPosition : List (Pos × ℕ × ℕ))
      (candidatesCount : List (Pos × ℕ)) : ResponseBody
  | failedStarting (reasons : List String) (startingHave : List (Pos × ℕ))
      (spentM remainingM : ℚ) (teamCountsOut : List (ℕ × ℕ))
      (candidatesCount : List (Pos × ℕ)) : ResponseBody
  | failedSquad (reasons : List String) (haveByPosition : List (Pos × ℕ))
      (spentM remainingM : ℚ) (teamCountsOut : List (ℕ × ℕ))
      (candidatesCount : List (Pos × ℕ)) : ResponseBody
  | success (body : SuccessBody) : ResponseBody
deriving DecidableEq, Repr

/-- A full response: every branch of recommend_squad stamps the current time
into `generated_at`; everything else is a pure function of pool and request. -/
structure Response where
  generatedAt : String
  body : ResponseBody
deriving DecidableEq, Repr

/-- recommend_squad after the candidate query: candidate buckets, fail-fast
raw-count check, starting XI build, bench build, verification, assembly. -/
def recommendBody (rows : List Candidate) (budget : ℚ) (maxPerTeam : ℕ) :
    ResponseBody :=
  let buckets := buildCandidateBuckets rows
  let candidatesCount : List (Pos × ℕ) := allPos.map fun p => (p, (buckets p).length)
  let missingPs := allPos.filter fun p => decide ((buckets p).length < squadRules p)
  if missingPs = [] then
    let sa := pickStartingXI buckets budget maxPerTeam squadRules startingFormation
    if allPos.all fun p => decide (startingFormation p ≤ countPos sa.picked p) then
      let ba := pickBench buckets sa.picked sa.remaining sa.st.teamCounts
        sa.st.totalHave squadRules maxPerTeam
      let finalRows := sa.picked ++ ba.picked
      if (allPos.all fun p => decide (squadRules p ≤ countPos finalRows p)) &&
          decide (finalRows.length = 15) then
        ResponseBody.success (mkSuccessBody budget sa.picked ba.picked ba.st ba.remaining)
      else
        ResponseBody.failedSquad (sa.reasons ++ ba.reasons)
          (allPos.map fun p => (p, countPos finalRows p))
          (budget - ba.remaining) ba.remaining
          ((firstOccurs (finalRows.map Candidate.teamId)).map
            fun t => (t, ba.st.teamCounts t))
          candidatesCount
    else
      ResponseBody.failedStarting sa.reasons
        (allPos.map fun p => (p, countPos sa.picked p))
        (budget - sa.remaining) sa.remaining
        ((firstOccurs (sa.picked.map Candidate.teamId)).map
          fun t => (t, sa.st.teamCounts t))
        candidatesCount
  else
    ResponseBody.insufficient
      (missingPs.map fun p => (p, squadRules p, (buckets p).length))
      candidatesCount

/-- recommend_squad: the response body together with the `generated_at`
timestamp taken at response time. -/
def recommendSquad (rows : List Candidate) (budget : ℚ) (maxPerTeam : ℕ)
    (now : String) : Response :=
  ⟨now, recommendBody rows budget maxPerTeam⟩

/-- Modelled from the spec (section 4.3, Strategy A): the claimed sort key
"descending score; ties broken by descending cost, then descending
affiliation id, then descending id".  Under a descending sort, `a` may come
no later than `b` exactly when b's claimed key is lexicographically at most
a's. -/
def specPointsKey (c : Candidate) : ℚ × ℤ × ℤ × ℤ :=
  (c.points, (c.nowCost : ℤ), (c.teamId : ℤ), (c.id : ℤ))

def specPointsBefore (a b : Candidate) : Prop :=
  key4Le (specPointsKey b) (specPointsKey a)

instance specPointsBeforeDec (a b : Candidate) : Decidable (specPointsBefore a b) := by
  unfold specPointsBefore
  exact inferInstance

/-- The order actually implemented by _sort_bucket's "points" strategy:
descending predicted points, ties broken by ascending now_cost, then
ascending team id, then ascending player id. -/
def codePointsBefore (a b : Candidate) : Prop :=
  key4Le (pointsKey b) (pointsKey a)

/-- Position strings are valid: every row carries one of the four role
strings.  Holds for every row that ever enters a bucket. -/
def PosValid (rows : List Candidate) : Prop :=
  ∀ c ∈ rows, ∃ p : Pos, c.position = posStr p

/-- The invariant tying a selection state to the list of rows committed so
far (starting rows ++ bench rows), the budget and the cap.  `srOpt` is the
starting-phase marker: during the starting phase it carries the formation
requirement and the state's starting counters track the rows as well. -/
structure SelInv (budget : ℚ) (cap : ℕ) (srOpt : Option (Pos → ℕ))
    (rows : List Candidate) (st : SelState) (remaining : ℚ) : Prop where
  selected_iff : ∀ x, x ∈ st.selected ↔ x ∈ rows.map Candidate.id
  ids_nodup : (rows.map Candidate.id).Nodup
  team_eq : ∀ t, st.teamCounts t = countTeam rows t
  total_eq : ∀ p, st.totalHave p = countPos rows p
  cap_le : ∀ t, st.teamCounts t ≤ cap
  pos_valid : PosValid rows
  rem_eq : remaining = budget - costSum rows
  rem_ge : -eps ≤ remaining
  start_eq : ∀ sr, srOpt = some sr → ∀ p, st.startingHave p = countPos rows p
  start_le : ∀ sr, srOpt = some sr → ∀ p, countPos rows p ≤ sr p

def successBodyOf : ResponseBody → Option SuccessBody
  | .success b => some b
  | _ => none

/-- A concrete 15-candidate pool (2/5/5/3 by role, 15 distinct teams, all
rows cost 5.0m) on which the build succeeds; used to instantiate theorems
with hypotheses. -/
def demoPool : List Candidate :=
  [⟨1, 1, "GKP", 50, 5⟩, ⟨2, 2, "GKP", 50, 4⟩,
   ⟨3, 3, "DEF", 50, 9⟩, ⟨4, 4, "DEF", 50, 8⟩, ⟨5, 5, "DEF", 50, 7⟩,
   ⟨6, 6, "DEF", 50, 6⟩, ⟨7, 7, "DEF", 50, 5⟩,
   ⟨8, 8, "MID", 50, 9⟩, ⟨9, 9, "MID", 50, 8⟩, ⟨10, 10, "MID", 50, 7⟩,
   ⟨11, 11, "MID", 50, 6⟩, ⟨12, 12, "MID", 50, 5⟩,
   ⟨13, 13, "FWD", 50, 9⟩, ⟨14, 14, "FWD", 50, 8⟩, ⟨15, 15, "FWD", 50, 7⟩]

def demoBuckets : Pos → List Candidate := buildCandidateBuckets demoPool

def demoSt0 : SelState := ⟨[], fun _ => 0, fun _ => 0, fun _ => 0⟩

def demoBody : SuccessBody :=
  (successBodyOf (recommendBody demoPool 100 3)).getD default

/-- The full pick sequence of one build, in commit order: the starting rows
followed by the bench rows (as produced by the two phases of
recommend_squad). -/
def buildPickedRows (rows : List Candidate) (budget : ℚ) (cap : ℕ) :
    List Candidate :=
  (pickStartingXI (buildCandidateBuckets rows) budget cap squadRules
    startingFormation).picked ++
  (pickBench (buildCandidateBuckets rows)
    (pickStartingXI (buildCandidateBuckets rows) budget cap squadRules
      startingFormation).picked
    (pickStartingXI (buildCandidateBuckets rows) budget cap squadRules
      startingFormation).remaining
    (pickStartingXI (buildCandidateBuckets rows) budget cap squadRules
      startingFormation).st.teamCounts
    (pickStartingXI (buildCandidateBuckets rows) budget cap squadRules
      startingFormation).st.totalHave squadRules cap).picked

/-- The invariant carried by the starting-XI loop accumulator. -/
def StartInv (budget : ℚ) (cap : ℕ) (srReq : Pos → ℕ) (a : XIAcc) : Prop :=
  SelInv budget cap (some srReq) a.picked a.st a.remaining

/-- The invariant carried by the bench loop accumulator: the bench picks
extend the starting rows. -/
def BenchInv (budget : ℚ) (cap : ℕ) (base : List Candidate) (a : XIAcc) :
    Prop :=
  SelInv budget cap none (base ++ a.picked) a.st a.remaining

/-- All starting rows of a success body, in payload order. -/
def SuccessBody.startingAll (b : SuccessBody) : List Candidate :=
  b.startingGKP ++ b.startingDEF ++ b.startingMID ++ b.startingFWD

/-- All bench rows of a success body, in payload order. -/
def SuccessBody.benchAll (b : SuccessBody) : List Candidate :=
  b.benchGKP ++ b.benchDEF ++ b.benchMID ++ b.benchFWD

/-! ## Order lemmas for the sort comparators -/

theorem key4Le_iff (x y : ℚ × ℤ × ℤ × ℤ) :
    key4Le x y ↔
      toLex (x.1, toLex (x.2.1, toLex (x.2.2.1, x.2.2.2))) ≤
        toLex (y.1, toLex (y.2.1, toLex (y.2.2.1, y.2.2.2))) := by
  rw [Prod.Lex.le_iff, Prod.Lex.le_iff, Prod.Lex.le_iff]
  exact Iff.rfl

theorem key4Le_trans {x y z : ℚ × ℤ × ℤ × ℤ} (h1 : key4Le x y)
    (h2 : key4Le y z) : key4Le x z := by
  rw [key4Le_iff] at h1 h2 ⊢
  exact le_trans h1 h2

theorem key4Le_total (x y : ℚ × ℤ × ℤ × ℤ) : key4Le x y ∨ key4Le y x := by
  rw [key4Le_iff, key4Le_iff]
  exact le_total _ _

theorem key2Le_iff (x y : ℚ × ℚ) :
    key2Le x y ↔ toLex x ≤ toLex y := by
  rw [Prod.Lex.le_iff]
  exact Iff.rfl

theorem key2Le_trans {x y z : ℚ × ℚ} (h1 : key2Le x y) (h2 : key2Le y z) :
    key2Le x z := by
  rw [key2Le_iff] at h1 h2 ⊢
  exact le_trans h1 h2

theorem key2Le_total (x y : ℚ × ℚ) : key2Le x y ∨ key2Le y x := by
  rw [key2Le_iff, key2Le_iff]
  exact le_total _ _

theorem pointsLeB_trans (a b c : Candidate) (h1 : pointsLeB a b = true)
    (h2 : pointsLeB b c = true) : pointsLeB a c = true := by
  simp only [pointsLeB, decide_eq_true_eq] at h1 h2 ⊢
  exact key4Le_trans h2 h1

theorem pointsLeB_total (a b : Candidate) :
    (pointsLeB a b || pointsLeB b a) = true := by
  simp only [pointsLeB, Bool.or_eq_true, decide_eq_true_eq]
  exact (key4Le_total (pointsKey b) (pointsKey a))

theorem valueLeB_trans (a b c : Candidate) (h1 : valueLeB a b = true)
    (h2 : valueLeB b c = true) : valueLeB a c = true := by
  simp only [valueLeB, decide_eq_true_eq] at h1 h2 ⊢
  exact key2Le_trans h2 h1

theorem valueLeB_total (a b : Candidate) :
    (valueLeB a b || valueLeB b a) = true := by
  simp only [valueLeB, Bool.or_eq_true, decide_eq_true_eq]
  exact (key2Le_total (valueKey b) (valueKey a))

theorem ratLeB_trans (a b c : ℚ) (h1 : ratLeB a b = true)
    (h2 : ratLeB b c = true) : ratLeB a c = true := by
  simp only [ratLeB, decide_eq_true_eq] at h1 h2 ⊢
  exact le_trans h1 h2

theorem ratLeB_total (a b : ℚ) : (ratLeB a b || ratLeB b a) = true := by
  simp only [ratLeB, Bool.or_eq_true, decide_eq_true_eq]
  exact le_total a b

theorem sortBucket_perm (bucket : List Candidate) (ob : OrderBy) :
    (sortBucket bucket ob).Perm bucket := by
  cases ob <;> exact List.mergeSort_perm bucket _

theorem mem_sortBucket {c : Candidate} {bucket : List Candidate}
    {ob : OrderBy} : c ∈ sortBucket bucket ob ↔ c ∈ bucket :=
  (sortBucket_perm bucket ob).mem_iff

theorem posStr_inj : ∀ p q : Pos, posStr p = posStr q → p = q := by decide

/-! ## Commit / rollback -/

theorem rollback_commit (st : SelState) (pos : Pos) (c : Candidate)
    (ph : Bool) : rollbackPick (commitPick st pos c ph) pos c ph = st := by
  cases st with
  | mk sel tc th sh =>
    unfold rollbackPick commitPick
    simp only [SelState.mk.injEq]
    refine ⟨List.erase_cons_head .., ?_, ?_, ?_⟩
    · rw [Function.update_idem, Function.update_same, Nat.add_sub_cancel,
        Function.update_eq_self]
    · rw [Function.update_idem, Function.update_same, Nat.add_sub_cancel,
        Function.update_eq_self]
    · cases ph with
      | false => rfl
      | true =>
        simp only [if_true]
        rw [Function.update_idem, Function.update_same, Nat.add_sub_cancel,
          Function.update_eq_self]

/-! ## The pick-attempt scan -/

theorem tryPickLoop_none (pos : Pos) (cap : ℕ) (rb : ℚ) (totReq : Pos → ℕ)
    (srOpt : Option (Pos → ℕ)) (bucketsAll : Pos → List Candidate)
    (bucket : List Candidate) (st : SelState) :
    ∀ st1, tryPickLoop pos cap rb totReq srOpt bucketsAll bucket st =
      (none, st1) → st1 = st := by
  induction bucket with
  | nil =>
    intro st1 h
    simp only [tryPickLoop, Prod.mk.injEq] at h
    exact h.2.symm
  | cons c rest ih =>
    intro st1 h
    simp only [tryPickLoop] at h
    split at h
    · exact ih st1 h
    · split at h
      · exact ih st1 h
      · split at h
        · exact ih st1 h
        · split at h
          · simp at h
          · rw [rollback_commit] at h
            exact ih st1 h

theorem tryPickLoop_some (pos : Pos) (cap : ℕ) (rb : ℚ) (totReq : Pos → ℕ)
    (srOpt : Option (Pos → ℕ)) (bucketsAll : Pos → List Candidate)
    (bucket : List Candidate) (st : SelState) :
    ∀ c st1, tryPickLoop pos cap rb totReq srOpt bucketsAll bucket st =
      (some c, st1) →
      c ∈ bucket ∧ c.id ∉ st.selected ∧ st.teamCounts c.teamId < cap ∧
        costM c ≤ rb + eps ∧ st1 = commitPick st pos c srOpt.isSome ∧
        canCompleteSquad (rb - costM c)
          (remainingNeeded totReq st1.totalHave) bucketsAll st1.selected
          st1.teamCounts cap = true := by
  induction bucket with
  | nil =>
    intro c st1 h
    simp [tryPickLoop] at h
  | cons a rest ih =>
    intro c st1 h
    simp only [tryPickLoop] at h
    split at h
    · obtain ⟨hm, h2, h3, h4, h5, h6⟩ := ih c st1 h
      exact ⟨List.mem_cons_of_mem _ hm, h2, h3, h4, h5, h6⟩
    · split at h
      · obtain ⟨hm, h2, h3, h4, h5, h6⟩ := ih c st1 h
        exact ⟨List.mem_cons_of_mem _ hm, h2, h3, h4, h5, h6⟩
      · split at h
        · obtain ⟨hm, h2, h3, h4, h5, h6⟩ := ih c st1 h
          exact ⟨List.mem_cons_of_mem _ hm, h2, h3, h4, h5, h6⟩
        · rename_i hsel hcap hcost
          split at h
          · rename_i hfeas
            simp only [Prod.mk.injEq, Option.some.injEq] at h
            obtain ⟨rfl, rfl⟩ := h
            exact ⟨List.mem_cons_self a rest, hsel, lt_of_not_le hcap,
              le_of_not_lt hcost, rfl, hfeas⟩
          · rw [rollback_commit] at h
            obtain ⟨hm, h2, h3, h4, h5, h6⟩ := ih c st1 h
            exact ⟨List.mem_cons_of_mem _ hm, h2, h3, h4, h5, h6⟩

theorem tryPickOne_none (pos : Pos) (orderedBucket : List Candidate)
    (st : SelState) (cap : ℕ) (rb : ℚ) (totReq : Pos → ℕ)
    (srOpt : Option (Pos → ℕ)) (bucketsAll : Pos → List Candidate) :
    ∀ st1 err, tryPickOne pos orderedBucket st cap rb totReq srOpt
      bucketsAll = (none, st1, err) → st1 = st := by
  intro st1 err h
  unfold tryPickOne at h
  split at h
  · simp only [Prod.mk.injEq] at h
    exact h.2.1.symm
  · split at h
    · simp only [Prod.mk.injEq] at h
      exact h.2.1.symm
    · split at h
      · rename_i c st2 heq
        simp at h
      · rename_i st2 heq
        simp only [Prod.mk.injEq] at h
        obtain ⟨-, h2, -⟩ := h
        subst h2
        exact tryPickLoop_none pos cap rb totReq srOpt bucketsAll
          orderedBucket st st2 heq

theorem tryPickOne_some (pos : Pos) (orderedBucket : List Candidate)
    (st : SelState) (cap : ℕ) (rb : ℚ) (totReq : Pos → ℕ)
    (srOpt : Option (Pos → ℕ)) (bucketsAll : Pos → List Candidate) :
    ∀ c st1 err, tryPickOne pos orderedBucket st cap rb totReq srOpt
      bucketsAll = (some c, st1, err) →
      st.totalHave pos < totReq pos ∧
        (∀ sr, srOpt = some sr → st.startingHave pos < sr pos) ∧
        c ∈ orderedBucket ∧ c.id ∉ st.selected ∧
        st.teamCounts c.teamId < cap ∧ costM c ≤ rb + eps ∧
        st1 = commitPick st pos c srOpt.isSome := by
  intro c st1 err h
  unfold tryPickOne at h
  split at h
  · simp at h
  · rename_i htot
    split at h
    · simp at h
    · rename_i hstart
      split at h
      · rename_i c2 st2 heq
        simp only [Prod.mk.injEq, Option.some.injEq] at h
        obtain ⟨rfl, rfl, -⟩ := h
        obtain ⟨ha, hb, hc, hd, he, -⟩ :=
          tryPickLoop_some pos cap rb totReq srOpt bucketsAll
            orderedBucket st c2 st2 heq
        refine ⟨lt_of_not_le htot, ?_, ha, hb, hc, hd, he⟩
        intro sr hsr
        subst hsr
        simp only [decide_eq_true_eq] at hstart
        exact lt_of_not_le hstart
      · simp at h

/-! ## Counting helpers -/

theorem countPos_append (l1 l2 : List Candidate) (p : Pos) :
    countPos (l1 ++ l2) p = countPos l1 p + countPos l2 p := by
  simp [countPos]

theorem countTeam_append (l1 l2 : List Candidate) (t : ℕ) :
    countTeam (l1 ++ l2) t = countTeam l1 t + countTeam l2 t := by
  simp [countTeam]

theorem costSum_append (l1 l2 : List Candidate) :
    costSum (l1 ++ l2) = costSum l1 + costSum l2 := by
  simp [costSum]

theorem countPos_singleton (c : Candidate) (p : Pos) :
    countPos [c] p = if c.position = posStr p then 1 else 0 := by
  by_cases h : c.position = posStr p <;> simp [countPos, h]

theorem countTeam_singleton (c : Candidate) (t : ℕ) :
    countTeam [c] t = if c.teamId = t then 1 else 0 := by
  by_cases h : c.teamId = t <;> simp [countTeam, h]

theorem costM_nonneg (c : Candidate) : 0 ≤ costM c := by
  unfold costM calcCostM
  positivity

theorem costSum_nonneg (l : List Candidate) : 0 ≤ costSum l := by
  unfold costSum
  induction l with
  | nil => simp
  | cons c rest ih =>
    simp only [List.map_cons, List.sum_cons]
    have := costM_nonneg c
    linarith

theorem eps_pos : (0 : ℚ) < eps := by norm_num [eps]

/-! ## Invariant preservation -/

theorem commitPick_selInv {budget : ℚ} {cap : ℕ} {srOpt : Option (Pos → ℕ)}
    {rows : List Candidate} {st : SelState} {rem : ℚ}
    (inv : SelInv budget cap srOpt rows st rem) {pos : Pos} {c : Candidate}
    (hid : c.id ∉ st.selected) (hcap : st.teamCounts c.teamId < cap)
    (hcost : costM c ≤ rem + eps) (hpos : c.position = posStr pos)
    (hsr : ∀ sr, srOpt = some sr → countPos rows pos < sr pos) :
    SelInv budget cap srOpt (rows ++ [c])
      (commitPick st pos c srOpt.isSome) (rem - costM c) := by
  have hidrows : c.id ∉ rows.map Candidate.id := by
    intro hmem
    exact hid ((inv.selected_iff c.id).2 hmem)
  constructor
  · intro x
    simp only [commitPick, List.mem_cons, List.map_append, List.map_cons,
      List.map_nil, List.mem_append, List.mem_singleton,
      inv.selected_iff x]
    tauto
  · simp only [List.map_append, List.map_cons, List.map_nil,
      List.nodup_append, List.nodup_cons, List.nodup_nil, List.not_mem_nil,
      not_false_iff, and_true, List.disjoint_singleton]
    exact ⟨inv.ids_nodup, trivial, hidrows⟩
  · intro t
    by_cases h : t = c.teamId
    · subst h
      simp [commitPick, Function.update_apply, countTeam_append,
        countTeam_singleton, inv.team_eq]
    · have h2 : ¬ c.teamId = t := fun hh => h hh.symm
      simp [commitPick, Function.update_apply, countTeam_append,
        countTeam_singleton, h, h2, inv.team_eq]
  · intro p
    by_cases h : p = pos
    · subst h
      simp [commitPick, Function.update_apply, countPos_append,
        countPos_singleton, hpos, inv.total_eq]
    · have h2 : ¬ c.position = posStr p := by
        rw [hpos]
        intro hh
        exact h (posStr_inj pos p hh).symm
      simp [commitPick, Function.update_apply, countPos_append,
        countPos_singleton, h, h2, inv.total_eq]
  · intro t
    simp only [commitPick, Function.update_apply]
    by_cases h : t = c.teamId
    · simp only [h, if_pos rfl]
      subst h
      exact hcap
    · simp only [h, if_false]
      exact inv.cap_le t
  · intro x hx
    rcases List.mem_append.1 hx with hx | hx
    · exact inv.pos_valid x hx
    · rw [List.mem_singleton.1 hx]
      exact ⟨pos, hpos⟩
  · rw [inv.rem_eq, costSum_append]
    simp [costSum]
    ring
  · have := inv.rem_ge
    linarith
  · intro sr hsrEq p
    have hsome : srOpt.isSome = true := by rw [hsrEq]; rfl
    simp only [commitPick, hsome, if_true, Function.update_apply,
      countPos_append, countPos_singleton, inv.start_eq sr hsrEq p]
    by_cases h : p = pos
    · subst h
      simp [hpos, inv.start_eq sr hsrEq p]
    · have h2 : ¬ c.position = posStr p := by
        rw [hpos]
        intro hh
        exact h (posStr_inj pos p hh).symm
      simp [h, h2]
  · intro sr hsrEq p
    rw [countPos_append, countPos_singleton]
    by_cases h : p = pos
    · subst h
      have := hsr sr hsrEq
      simp [hpos]
      omega
    · have h2 : ¬ c.position = posStr p := by
        rw [hpos]
        intro hh
        exact h (posStr_inj pos p hh).symm
      simp only [h2, if_false, Nat.add_zero]
      exact inv.start_le sr hsrEq p

theorem tryPickOne_selInv {budget : ℚ} {cap : ℕ} {srOpt : Option (Pos → ℕ)}
    {rows : List Candidate} {st : SelState} {rem : ℚ}
    (inv : SelInv budget cap srOpt rows st rem) (pos : Pos)
    (orderedBucket : List Candidate) (totReq : Pos → ℕ)
    (bucketsAll : Pos → List Candidate)
    (hord : ∀ c ∈ orderedBucket, c.position = posStr pos) :
    (∀ st1 err, tryPickOne pos orderedBucket st cap rem totReq srOpt
        bucketsAll = (none, st1, err) → st1 = st) ∧
    (∀ c st1 err, tryPickOne pos orderedBucket st cap rem totReq srOpt
        bucketsAll = (some c, st1, err) →
      SelInv budget cap srOpt (rows ++ [c]) st1 (rem - costM c)) := by
  constructor
  · exact tryPickOne_none pos orderedBucket st cap rem totReq srOpt bucketsAll
  · intro c st1 err h
    obtain ⟨-, hsr, hmem, hid, hcap, hcost, hcommit⟩ :=
      tryPickOne_some pos orderedBucket st cap rem totReq srOpt bucketsAll
        c st1 err h
    subst hcommit
    refine commitPick_selInv inv hid hcap hcost (hord c hmem) ?_
    intro sr hsrEq
    rw [← inv.start_eq sr hsrEq pos]
    exact hsr sr hsrEq

theorem startingPassStep_inv {budget : ℚ} {cap : ℕ} {srReq totReq : Pos → ℕ}
    {buckets ordered : Pos → List Candidate} {metric : OrderBy}
    (hord : ∀ p, ∀ c ∈ ordered p, c.position = posStr p)
    (acc : XIAcc × Bool) (pos : Pos)
    (hinv : StartInv budget cap srReq acc.1) :
    StartInv budget cap srReq
      (startingPassStep buckets ordered totReq srReq cap metric acc pos).1 := by
  simp only [startingPassStep]
  split
  · exact hinv
  · split
    · rename_i c st1 x heq
      have := (tryPickOne_selInv hinv pos (ordered pos) totReq buckets
        (hord pos)).2 c st1 x heq
      exact this
    · rename_i st1 err heq
      have h1 := tryPickOne_none pos (ordered pos) acc.1.st cap
        acc.1.remaining totReq (some srReq) buckets st1 err heq
      subst h1
      exact hinv

theorem startingPass_foldl_inv {budget : ℚ} {cap : ℕ} {srReq totReq : Pos → ℕ}
    {buckets ordered : Pos → List Candidate} {metric : OrderBy}
    (hord : ∀ p, ∀ c ∈ ordered p, c.position = posStr p) :
    ∀ (ps : List Pos) (acc : XIAcc × Bool),
      StartInv budget cap srReq acc.1 →
      StartInv budget cap srReq
        (ps.foldl (startingPassStep buckets ordered totReq srReq cap metric)
          acc).1 := by
  intro ps
  induction ps with
  | nil => intro acc h; exact h
  | cons p rest ih =>
    intro acc h
    simp only [List.foldl_cons]
    exact ih _ (startingPassStep_inv hord acc p h)

theorem pickStartingXILoop_inv {budget : ℚ} {cap : ℕ} {srReq totReq : Pos → ℕ}
    {buckets op ov : Pos → List Candidate}
    (hop : ∀ p, ∀ c ∈ op p, c.position = posStr p)
    (hov : ∀ p, ∀ c ∈ ov p, c.position = posStr p) :
    ∀ (fuel cycle : ℕ) (acc : XIAcc),
      StartInv budget cap srReq acc →
      StartInv budget cap srReq
        (pickStartingXILoop buckets op ov totReq srReq cap fuel cycle acc) := by
  intro fuel
  induction fuel with
  | zero =>
    intro cycle acc h
    unfold pickStartingXILoop
    split
    · exact h
    · exact h
  | succ fuel ih =>
    intro cycle acc h
    unfold pickStartingXILoop
    split
    · exact h
    · split
      · dsimp only
        split
        · exact ih _ _ (startingPass_foldl_inv hop positionCycle (acc, false) h)
        · exact startingPass_foldl_inv hop positionCycle (acc, false) h
      · dsimp only
        split
        · exact ih _ _ (startingPass_foldl_inv hov positionCycle (acc, false) h)
        · exact startingPass_foldl_inv hov positionCycle (acc, false) h

theorem sortBucket_pos {buckets : Pos → List Candidate} {rows : List Candidate}
    (hb : buckets = buildCandidateBuckets rows) (ob : OrderBy) :
    ∀ p, ∀ c ∈ sortBucket (buckets p) ob, c.position = posStr p := by
  intro p c hc
  have hmem : c ∈ buckets p := mem_sortBucket.1 hc
  rw [hb] at hmem
  simp only [buildCandidateBuckets, List.mem_filter,
    decide_eq_true_eq] at hmem
  exact hmem.2

theorem pickStartingXI_inv (rows : List Candidate) (budget : ℚ) (cap : ℕ)
    (totReq srReq : Pos → ℕ) (hb : 0 ≤ budget) :
    StartInv budget cap srReq
      (pickStartingXI (buildCandidateBuckets rows) budget cap totReq srReq) := by
  unfold pickStartingXI
  apply pickStartingXILoop_inv (sortBucket_pos rfl OrderBy.points)
    (sortBucket_pos rfl OrderBy.value)
  constructor
  · intro x
    simp
  · simp
  · intro t
    simp [countTeam]
  · intro p
    simp [countPos]
  · intro t
    simp
  · intro x hx
    simp at hx
  · simp [costSum]
  · simp only
    have := eps_pos
    linarith
  · intro sr hsrEq p
    simp [countPos]
  · intro sr hsrEq p
    simp [countPos]

theorem benchPassStep_inv {budget : ℚ} {cap : ℕ} {totReq : Pos → ℕ}
    {base : List Candidate} {buckets ov : Pos → List Candidate}
    (hord : ∀ p, ∀ c ∈ ov p, c.position = posStr p)
    (acc : XIAcc × Bool) (pos : Pos)
    (hinv : BenchInv budget cap base acc.1) :
    BenchInv budget cap base
      (benchPassStep buckets ov totReq cap acc pos).1 := by
  simp only [benchPassStep]
  split
  · exact hinv
  · split
    · rename_i c st1 x heq
      have := (tryPickOne_selInv hinv pos (ov pos) totReq buckets
        (hord pos)).2 c st1 x heq
      unfold BenchInv
      rw [← List.append_assoc]
      exact this
    · rename_i st1 err heq
      have h1 := tryPickOne_none pos (ov pos) acc.1.st cap
        acc.1.remaining totReq none buckets st1 err heq
      subst h1
      exact hinv

theorem benchPass_foldl_inv {budget : ℚ} {cap : ℕ} {totReq : Pos → ℕ}
    {base : List Candidate} {buckets ov : Pos → List Candidate}
    (hord : ∀ p, ∀ c ∈ ov p, c.position = posStr p) :
    ∀ (ps : List Pos) (acc : XIAcc × Bool),
      BenchInv budget cap base acc.1 →
      BenchInv budget cap base
        (ps.foldl (benchPassStep buckets ov totReq cap) acc).1 := by
  intro ps
  induction ps with
  | nil => intro acc h; exact h
  | cons p rest ih =>
    intro acc h
    simp only [List.foldl_cons]
    exact ih _ (benchPassStep_inv hord acc p h)

theorem pickBenchLoop_inv {budget : ℚ} {cap : ℕ} {totReq : Pos → ℕ}
    {base : List Candidate} {buckets ov : Pos → List Candidate}
    (hord : ∀ p, ∀ c ∈ ov p, c.position = posStr p) :
    ∀ (fuel : ℕ) (acc : XIAcc),
      BenchInv budget cap base acc →
      BenchInv budget cap base
        (pickBenchLoop buckets ov totReq cap fuel acc) := by
  intro fuel
  induction fuel with
  | zero =>
    intro acc h
    unfold pickBenchLoop
    split
    · exact h
    · exact h
  | succ fuel ih =>
    intro acc h
    unfold pickBenchLoop
    split
    · exact h
    · simp only
      split
      · exact ih _ (benchPass_foldl_inv hord allPos (acc, false) h)
      · exact benchPass_foldl_inv hord allPos (acc, false) h

theorem pickBench_inv (rows : List Candidate) {budget : ℚ} {cap : ℕ}
    {srOpt0 : Option (Pos → ℕ)} {base : List Candidate} {stS : SelState}
    {remS : ℚ} (hinv : SelInv budget cap srOpt0 base stS remS)
    (totReq : Pos → ℕ) :
    BenchInv budget cap base
      (pickBench (buildCandidateBuckets rows) base remS stS.teamCounts
        stS.totalHave totReq cap) := by
  unfold pickBench
  apply pickBenchLoop_inv (sortBucket_pos rfl OrderBy.value)
  constructor
  · intro x
    simp
  · simp only [List.append_nil]
    exact hinv.ids_nodup
  · intro t
    simp only [List.append_nil]
    exact hinv.team_eq t
  · intro p
    simp only [List.append_nil]
    exact hinv.total_eq p
  · intro t
    exact hinv.cap_le t
  · intro x hx
    simp only [List.append_nil] at hx
    exact hinv.pos_valid x hx
  · simp only [List.append_nil]
    exact hinv.rem_eq
  · exact hinv.rem_ge
  · intro sr hsrEq
    cases hsrEq
  · intro sr hsrEq
    cases hsrEq

/-! ## Oracle soundness machinery -/

/-- In a sorted list, the i-th element of a sorted sub-multiset dominates the
i-th element of the full sorted list. -/
theorem sorted_getElem_mono {sl ss : List ℚ}
    (hsl : sl.Pairwise (· ≤ ·)) (hss : ss.Pairwise (· ≤ ·))
    (hsub : ss.Subperm sl) (i : ℕ) (hi : i < ss.length)
    (hi2 : i < sl.length) : sl[i] ≤ ss[i] := by
  by_contra hlt
  push_neg at hlt
  set P : ℚ → Bool := fun x => decide (x ≤ ss[i]) with hP
  have hA : i + 1 ≤ ss.countP P := by
    have hsplit : ss.countP P =
        (ss.take (i + 1)).countP P + (ss.drop (i + 1)).countP P := by
      rw [← List.countP_append, List.take_append_drop]
    have htake : (ss.take (i + 1)).countP P = (ss.take (i + 1)).length := by
      rw [List.countP_eq_length]
      intro a ha
      obtain ⟨j, hj, hja⟩ := List.mem_iff_getElem.1 ha
      have hjlen : j < ss.length := lt_of_lt_of_le hj (by
        rw [List.length_take]
        exact min_le_right _ _)
      have hji : j ≤ i := by
        rw [List.length_take] at hj
        omega
      have : ss[j] ≤ ss[i] := by
        rcases lt_or_eq_of_le hji with hji | hji
        · exact List.pairwise_iff_getElem.1 hss j i hjlen hi hji
        · subst hji
          exact le_refl _
      rw [List.getElem_take] at hja
      rw [hP]
      simp only [decide_eq_true_eq]
      rw [← hja]
      exact this
    have hlen : (ss.take (i + 1)).length = i + 1 := by
      rw [List.length_take]
      omega
    omega
  have hB : sl.countP P ≤ i := by
    have hsplit : sl.countP P =
        (sl.take i).countP P + (sl.drop i).countP P := by
      rw [← List.countP_append, List.take_append_drop]
    have hdrop : (sl.drop i).countP P = 0 := by
      rw [List.countP_eq_zero]
      intro a ha
      obtain ⟨j, hj, hja⟩ := List.mem_iff_getElem.1 ha
      rw [List.getElem_drop] at hja
      have hij : i + j < sl.length := by
        rw [List.length_drop] at hj
        omega
      have hle : sl[i] ≤ sl[i + j] := by
        rcases Nat.eq_zero_or_pos j with hj0 | hj0
        · subst hj0
          simp
        · exact List.pairwise_iff_getElem.1 hsl i (i + j) hi2 hij (by omega)
      rw [hP]
      simp only [decide_eq_true_eq]
      rw [← hja]
      intro hcon
      exact absurd (lt_of_le_of_lt (le_trans hle hcon) hlt) (lt_irrefl _)
    have htake : (sl.take i).countP P ≤ i :=
      le_trans (List.countP_le_length P) (by
        rw [List.length_take]
        exact min_le_left _ _)
    omega
  have hC := hsub.countP_le P
  omega

/-- The sum of the k cheapest elements of `costs` is a lower bound for the
sum of any sub-multiset of `costs` with at least k elements, when all costs
are non-negative. -/
theorem take_mergeSort_sum_le {costs pick : List ℚ} {k : ℕ}
    (hsub : pick.Subperm costs) (hk : k ≤ pick.length)
    (hnn : ∀ x ∈ costs, 0 ≤ x) :
    (((costs.mergeSort ratLeB).take k).sum) ≤ pick.sum := by
  set sl := costs.mergeSort ratLeB with hsl
  set ss := pick.mergeSort ratLeB with hss
  have hslPerm : sl.Perm costs := List.mergeSort_perm costs _
  have hssPerm : ss.Perm pick := List.mergeSort_perm pick _
  have hslSorted : sl.Pairwise (· ≤ ·) := by
    have := List.sorted_mergeSort ratLeB_trans ratLeB_total costs
    exact this.imp (by
      intro a b hab
      simpa [ratLeB] using hab)
  have hssSorted : ss.Pairwise (· ≤ ·) := by
    have := List.sorted_mergeSort ratLeB_trans ratLeB_total pick
    exact this.imp (by
      intro a b hab
      simpa [ratLeB] using hab)
  have hsub2 : ss.Subperm sl :=
    ((hssPerm.subperm).trans hsub).trans hslPerm.symm.subperm
  have hkss : k ≤ ss.length := by
    rw [hssPerm.length_eq]
    exact hk
  have hksl : k ≤ sl.length := le_trans hkss hsub2.length_le
  have h1 : (sl.take k).sum ≤ (ss.take k).sum := by
    apply List.Forall₂.sum_le_sum
    rw [List.forall₂_iff_get]
    refine ⟨by
      rw [List.length_take, List.length_take]
      omega, ?_⟩
    intro i h₁ h₂
    rw [List.length_take] at h₁ h₂
    have hi1 : i < ss.length := by omega
    have hi2 : i < sl.length := by omega
    simp only [List.get_eq_getElem, List.getElem_take]
    exact sorted_getElem_mono hslSorted hssSorted hsub2 i hi1 hi2
  have h2 : (ss.take k).sum ≤ ss.sum := by
    apply List.Sublist.sum_le_sum (List.take_sublist k ss)
    intro a ha
    exact hnn a (hsub.subset (hssPerm.subset ha))
  calc (sl.take k).sum ≤ (ss.take k).sum := h1
    _ ≤ ss.sum := h2
    _ = pick.sum := hssPerm.sum_eq

theorem subperm_map {α β : Type} (f : α → β) {l1 l2 : List α}
    (h : l1.Subperm l2) : (l1.map f).Subperm (l2.map f) := by
  obtain ⟨l, hperm, hsub⟩ := h
  exact ⟨l.map f, hperm.map f, hsub.map f⟩

/-- Per-role lower bound: _sum_cheapest_cost_m bounds the cost of any choice
of at least k still-available candidates of that role. -/
theorem sumCheapest_le_pick {p : Pos} {k : ℕ}
    {buckets : Pos → List Candidate} {selected : List ℕ}
    {teamCounts : ℕ → ℕ} {maxPerTeam : ℕ} {s : ℚ} {pick : List Candidate}
    (hs : sumCheapestCostM p k buckets selected teamCounts maxPerTeam = some s)
    (hsub : pick.Subperm (availList buckets selected teamCounts maxPerTeam p))
    (hk : k ≤ pick.length) : s ≤ costSum pick := by
  unfold sumCheapestCostM at hs
  dsimp only at hs
  split at hs
  · rename_i h0
    subst h0
    simp only [Option.some.injEq] at hs
    subst hs
    exact costSum_nonneg pick
  · split at hs
    · exact absurd hs (by simp)
    · simp only [Option.some.injEq] at hs
      subst hs
      exact take_mergeSort_sum_le (subperm_map costM hsub) (by
          rw [List.length_map]
          exact hk) (by
        intro x hx
        obtain ⟨c, -, hc⟩ := List.mem_map.1 hx
        rw [← hc]
        exact costM_nonneg c)

theorem minPossible_none {needed : Pos → ℕ} {buckets : Pos → List Candidate}
    {selected : List ℕ} {teamCounts : ℕ → ℕ} {maxPerTeam : ℕ} :
    ∀ ps : List Pos,
      minPossibleCost needed buckets selected teamCounts maxPerTeam ps =
        none →
      ∃ p ∈ ps, sumCheapestCostM p (needed p) buckets selected teamCounts
        maxPerTeam = none := by
  intro ps
  induction ps with
  | nil =>
    intro h
    simp [minPossibleCost] at h
  | cons p rest ih =>
    intro h
    unfold minPossibleCost at h
    split at h
    · simp at h
    · rename_i heq
      rcases hsc : sumCheapestCostM p (needed p) buckets selected teamCounts
          maxPerTeam with - | s
      · exact ⟨p, List.mem_cons_self p rest, hsc⟩
      · rcases hmp : minPossibleCost needed buckets selected teamCounts
            maxPerTeam rest with - | t
        · obtain ⟨q, hq, hq2⟩ := ih hmp
          exact ⟨q, List.mem_cons_of_mem p hq, hq2⟩
        · exact absurd (heq s t hsc hmp) (by simp)

theorem minPossible_le {needed : Pos → ℕ} {buckets : Pos → List Candidate}
    {selected : List ℕ} {teamCounts : ℕ → ℕ} {maxPerTeam : ℕ}
    {picksFor : Pos → List Candidate}
    (hsub : ∀ p, (picksFor p).Subperm
      (availList buckets selected teamCounts maxPerTeam p))
    (hcnt : ∀ p, needed p ≤ (picksFor p).length) :
    ∀ (ps : List Pos) (m : ℚ),
      minPossibleCost needed buckets selected teamCounts maxPerTeam ps =
        some m →
      m ≤ (ps.map fun p => costSum (picksFor p)).sum := by
  intro ps
  induction ps with
  | nil =>
    intro m h
    simp only [minPossibleCost, Option.some.injEq] at h
    subst h
    simp
  | cons p rest ih =>
    intro m h
    unfold minPossibleCost at h
    split at h
    · rename_i s t hsc hmp
      simp only [Option.some.injEq] at h
      subst h
      simp only [List.map_cons, List.sum_cons]
      have h1 : s ≤ costSum (picksFor p) :=
        sumCheapest_le_pick hsc (hsub p) (hcnt p)
      have h2 := ih t hmp
      linarith
    · simp at h

theorem sumCheapest_none {p : Pos} {k : ℕ} {buckets : Pos → List Candidate}
    {selected : List ℕ} {teamCounts : ℕ → ℕ} {maxPerTeam : ℕ}
    (h : sumCheapestCostM p k buckets selected teamCounts maxPerTeam = none) :
    (availList buckets selected teamCounts maxPerTeam p).length < k := by
  unfold sumCheapestCostM at h
  dsimp only at h
  split at h
  · simp at h
  · split at h
    · rename_i hlen
      rw [List.length_map] at hlen
      exact hlen
    · simp at h

/-- C1 (Oracle soundness): whenever `_can_complete_squad` answers `False`
for a selection state, there is no choice of further candidates from the
same pool — excluding already-selected ids and candidates whose team is at
the cap, with no candidate chosen twice — that fills every role's remaining
need and costs at most the remaining budget plus the 1e-9 tolerance.  The
choice is a per-role sub-multiset `picksFor p` of the still-available rows
of role p's bucket, covering at least the remaining need of every role. -/
theorem oracle_soundness (remainingBudget : ℚ) (needed : Pos → ℕ)
    (buckets : Pos → List Candidate) (selected : List ℕ)
    (teamCounts : ℕ → ℕ) (maxPerTeam : ℕ)
    (hfalse : canCompleteSquad remainingBudget needed buckets selected
      teamCounts maxPerTeam = false)
    (picksFor : Pos → List Candidate)
    (hsub : ∀ p, (picksFor p).Subperm
      (availList buckets selected teamCounts maxPerTeam p))
    (hcnt : ∀ p, needed p ≤ (picksFor p).length) :
    ¬ ((allPos.map fun p => costSum (picksFor p)).sum ≤
      remainingBudget + eps) := by
  intro hcost
  unfold canCompleteSquad at hfalse
  cases hA : (allPos.all fun p => decide (needed p ≤
      (availList buckets selected teamCounts maxPerTeam p).length)) with
  | false =>
    rw [List.all_eq_false] at hA
    obtain ⟨p, -, hp⟩ := hA
    simp only [decide_eq_true_eq] at hp
    exact hp (le_trans (hcnt p) (hsub p).length_le)
  | true =>
    rw [hA, Bool.true_and] at hfalse
    rcases hm : minPossibleCost needed buckets selected teamCounts maxPerTeam
        allPos with - | m
    · obtain ⟨p, -, hps⟩ := minPossible_none allPos hm
      have := sumCheapest_none hps
      have h2 := le_trans (hcnt p) (hsub p).length_le
      omega
    · rw [hm] at hfalse
      simp only [decide_eq_false_iff_not, not_le] at hfalse
      have hle := minPossible_le hsub hcnt allPos m hm
      linarith

theorem oracle_soundness_witness :
    canCompleteSquad 4
      (fun p => if p = Pos.GKP then 1 else 0)
      (fun p => if p = Pos.GKP then [⟨1, 1, "GKP", 50, 5⟩] else []) []
      (fun _ => 0) 3 = false ∧
    ¬ ((allPos.map fun p =>
        costSum ((fun q : Pos =>
          if q = Pos.GKP then [(⟨1, 1, "GKP", 50, 5⟩ : Candidate)]
          else []) p)).sum ≤ 4 + eps) := by
  refine ⟨by with_unfolding_all decide, ?_⟩
  refine oracle_soundness 4 (fun p => if p = Pos.GKP then 1 else 0)
    (fun p => if p = Pos.GKP then [⟨1, 1, "GKP", 50, 5⟩] else []) []
    (fun _ => 0) 3 (by with_unfolding_all decide)
    (fun q => if q = Pos.GKP then [⟨1, 1, "GKP", 50, 5⟩] else []) ?_ ?_
  · intro p
    cases p with
    | GKP =>
      have havail : availList
          (fun p => if p = Pos.GKP then [⟨1, 1, "GKP", 50, 5⟩] else []) []
          (fun _ => 0) 3 Pos.GKP = [⟨1, 1, "GKP", 50, 5⟩] := by
        with_unfolding_all rfl
      rw [havail]
      exact List.Subperm.refl _
    | DEF => exact List.nil_subperm
    | MID => exact List.nil_subperm
    | FWD => exact List.nil_subperm
  · intro p
    cases p <;> decide

/-! ## Assembler facts -/

theorem mem_allPos (p : Pos) : p ∈ allPos := by
  cases p <;> simp [allPos]

theorem flatten_perm {rows : List Candidate} (h : PosValid rows) :
    (flattenGrouped rows).Perm rows := by
  rw [List.perm_iff_count]
  intro a
  have key : ∀ s : String,
      List.count a (rows.filter fun c => decide (c.position = s)) =
        if a.position = s then List.count a rows else 0 := by
    intro s
    by_cases hs : a.position = s
    · rw [if_pos hs]
      exact List.count_filter (by simp [hs])
    · rw [if_neg hs]
      refine List.count_eq_zero.2 ?_
      intro hmem
      have := List.of_mem_filter hmem
      simp only [decide_eq_true_eq] at this
      exact hs this
  simp only [flattenGrouped, groupByPosition, List.count_append, key]
  by_cases ha : a ∈ rows
  · obtain ⟨q, hq⟩ := h a ha
    cases q <;> simp [hq, posStr]
  · simp [List.count_eq_zero.2 ha]

theorem sum_countPos {l : List Candidate} (h : PosValid l) :
    countPos l Pos.GKP + countPos l Pos.DEF + countPos l Pos.MID +
      countPos l Pos.FWD = l.length := by
  have hp := (flatten_perm h).length_eq
  simp only [flattenGrouped, List.length_append] at hp
  simpa [countPos, groupByPosition] using hp

/-- Everything that holds of the pieces of a successful build. -/
theorem recommendBody_success {rows : List Candidate} {budget : ℚ} {cap : ℕ}
    {body : SuccessBody} (hb : 0 ≤ budget)
    (h : recommendBody rows budget cap = ResponseBody.success body) :
    ∃ sRows bRows stFin remFin,
      body = mkSuccessBody budget sRows bRows stFin remFin ∧
      SelInv budget cap none (sRows ++ bRows) stFin remFin ∧
      (sRows ++ bRows).length = 15 ∧
      (∀ p, countPos sRows p = startingFormation p) ∧
      (∀ p, countPos (sRows ++ bRows) p = squadRules p) := by
  unfold recommendBody at h
  dsimp only at h
  split at h
  · split at h
    · rename_i hS
      split at h
      · rename_i hQ
        simp only [ResponseBody.success.injEq] at h
        rw [Bool.and_eq_true] at hQ
        obtain ⟨hQ1, hQ2⟩ := hQ
        simp only [decide_eq_true_eq] at hQ2
        have hSI := pickStartingXI_inv rows budget cap squadRules
          startingFormation hb
        have hBI := pickBench_inv rows hSI squadRules
        refine ⟨_, _, _, _, h.symm, hBI, hQ2, ?_, ?_⟩
        · -- starting counts equal the formation exactly
          intro p
          have hge : startingFormation p ≤ countPos (pickStartingXI
              (buildCandidateBuckets rows) budget cap squadRules
              startingFormation).picked p := by
            rw [List.all_eq_true] at hS
            have := hS p (mem_allPos p)
            simpa using this
          have hle := hSI.start_le startingFormation rfl p
          omega
        · -- squad counts equal the quota exactly
          intro p
          rw [List.all_eq_true] at hQ1
          have hsum := sum_countPos hBI.pos_valid
          rw [hQ2] at hsum
          have g1 := hQ1 Pos.GKP (mem_allPos Pos.GKP)
          have g2 := hQ1 Pos.DEF (mem_allPos Pos.DEF)
          have g3 := hQ1 Pos.MID (mem_allPos Pos.MID)
          have g4 := hQ1 Pos.FWD (mem_allPos Pos.FWD)
          simp only [decide_eq_true_eq] at g1 g2 g3 g4
          have hr : squadRules Pos.GKP + squadRules Pos.DEF +
              squadRules Pos.MID + squadRules Pos.FWD = 15 := by decide
          cases p <;> omega
      · simp at h
    · simp at h
  · simp at h

theorem countTeam_perm {l1 l2 : List Candidate} (h : l1.Perm l2) (t : ℕ) :
    countTeam l1 t = countTeam l2 t :=
  (h.filter _).length_eq

theorem costSum_take_le (l : List Candidate) (n : ℕ) :
    costSum (l.take n) ≤ costSum l := by
  conv_rhs => rw [← List.take_append_drop n l]
  rw [costSum_append]
  have := costSum_nonneg (l.drop n)
  linarith

/-- The demo pool builds successfully. -/
theorem demo_success :
    recommendBody demoPool 100 3 = ResponseBody.success demoBody := by
  with_unfolding_all rfl

/-- C2 (Disjointness and cardinality): in every successful build response no
player id appears both among the starting picks and among the bench picks,
the ids of the 15 picks are pairwise distinct, and starting and bench
together hold exactly 15 candidates (2+5+5+3). -/
theorem disjoint_and_fifteen (rows : List Candidate) (budget : ℚ) (cap : ℕ)
    (body : SuccessBody) (hb : 0 ≤ budget)
    (h : recommendBody rows budget cap = ResponseBody.success body) :
    (∀ x, x ∈ body.startingAll.map Candidate.id →
      x ∉ body.benchAll.map Candidate.id) ∧
    ((body.startingAll ++ body.benchAll).map Candidate.id).Nodup ∧
    (body.startingAll ++ body.benchAll).length = 15 := by
  obtain ⟨s, b, stF, remF, hbody, hinv, hlen, -, -⟩ :=
    recommendBody_success hb h
  subst hbody
  have hps : PosValid s := fun c hc =>
    hinv.pos_valid c (List.mem_append_left _ hc)
  have hpb : PosValid b := fun c hc =>
    hinv.pos_valid c (List.mem_append_right _ hc)
  have hSA : (mkSuccessBody budget s b stF remF).startingAll.Perm s :=
    flatten_perm hps
  have hBA : (mkSuccessBody budget s b stF remF).benchAll.Perm b :=
    flatten_perm hpb
  have hperm : ((mkSuccessBody budget s b stF remF).startingAll ++
      (mkSuccessBody budget s b stF remF).benchAll).Perm (s ++ b) :=
    hSA.append hBA
  have hnodup : (((mkSuccessBody budget s b stF remF).startingAll ++
      (mkSuccessBody budget s b stF remF).benchAll).map Candidate.id).Nodup :=
    ((hperm.map Candidate.id).nodup_iff).2 hinv.ids_nodup
  refine ⟨?_, hnodup, ?_⟩
  · intro x hxs hxb
    rw [List.map_append, List.nodup_append] at hnodup
    exact hnodup.2.2 hxs hxb
  · rw [hperm.length_eq]
    exact hlen

theorem disjoint_and_fifteen_witness :
    ((demoBody.startingAll ++ demoBody.benchAll).map Candidate.id).Nodup ∧
    (demoBody.startingAll ++ demoBody.benchAll).length = 15 :=
  ⟨(disjoint_and_fifteen demoPool 100 3 demoBody
      (by with_unfolding_all decide) demo_success).2.1,
    (disjoint_and_fifteen demoPool 100 3 demoBody
      (by with_unfolding_all decide) demo_success).2.2⟩

/-- C3 (Affiliation-cap invariant): every successful result contains at most
max_per_team candidates of any one team; and at the level of single pick
attempts, a commit performed under the cap guard keeps every team count at
or below the cap, and so does the rollback of such a commit — hence the
bound holds after each committed or rolled-back pick. -/
theorem affiliation_cap :
    (∀ (rows : List Candidate) (budget : ℚ) (cap : ℕ) (body : SuccessBody),
      0 ≤ budget → recommendBody rows budget cap = ResponseBody.success body →
      ∀ t, countTeam (body.startingAll ++ body.benchAll) t ≤ cap) ∧
    (∀ (st : SelState) (pos : Pos) (c : Candidate) (ph : Bool) (cap : ℕ),
      (∀ t, st.teamCounts t ≤ cap) → st.teamCounts c.teamId < cap →
      (∀ t, (commitPick st pos c ph).teamCounts t ≤ cap) ∧
      (∀ t, (rollbackPick (commitPick st pos c ph) pos c ph).teamCounts t ≤
        cap)) := by
  constructor
  · intro rows budget cap body hb h t
    obtain ⟨s, b, stF, remF, hbody, hinv, -, -, -⟩ :=
      recommendBody_success hb h
    subst hbody
    have hps : PosValid s := fun c hc =>
      hinv.pos_valid c (List.mem_append_left _ hc)
    have hpb : PosValid b := fun c hc =>
      hinv.pos_valid c (List.mem_append_right _ hc)
    have hperm : ((mkSuccessBody budget s b stF remF).startingAll ++
        (mkSuccessBody budget s b stF remF).benchAll).Perm (s ++ b) :=
      (flatten_perm hps).append (flatten_perm hpb)
    rw [countTeam_perm hperm t, ← hinv.team_eq t]
    exact hinv.cap_le t
  · intro st pos c ph cap hcap hlt
    constructor
    · intro t
      simp only [commitPick, Function.update_apply]
      by_cases h : t = c.teamId
      · subst h
        simp only [if_pos rfl]
        exact hlt
      · simp only [h, if_false]
        exact hcap t
    · intro t
      rw [rollback_commit]
      exact hcap t

theorem affiliation_cap_witness :
    countTeam (demoBody.startingAll ++ demoBody.benchAll) 1 ≤ 3 ∧
    (commitPick demoSt0 Pos.GKP ⟨1, 1, "GKP", 50, 5⟩ true).teamCounts 1 ≤ 3 ∧
    (rollbackPick (commitPick demoSt0 Pos.GKP ⟨1, 1, "GKP", 50, 5⟩ true)
      Pos.GKP ⟨1, 1, "GKP", 50, 5⟩ true).teamCounts 1 ≤ 3 :=
  ⟨affiliation_cap.1 demoPool 100 3 demoBody (by with_unfolding_all decide)
      demo_success 1,
    (affiliation_cap.2 demoSt0 Pos.GKP ⟨1, 1, "GKP", 50, 5⟩ true 3
      (fun _ => Nat.zero_le 3) (by decide)).1 1,
    (affiliation_cap.2 demoSt0 Pos.GKP ⟨1, 1, "GKP", 50, 5⟩ true 3
      (fun _ => Nat.zero_le 3) (by decide)).2 1⟩

/-- C4 (Budget invariant and monotonicity): over the pick sequence of any
build (starting phase then bench phase), the running spent amount — the sum
of the costs of the first n committed picks — is non-decreasing in n, and
every such partial spend is at most the budget plus the 1e-9 tolerance. -/
theorem budget_invariant (rows : List Candidate) (budget : ℚ) (cap : ℕ)
    (hb : 0 ≤ budget) :
    (∀ n, costSum ((buildPickedRows rows budget cap).take n) ≤
      costSum ((buildPickedRows rows budget cap).take (n + 1))) ∧
    (∀ n, costSum ((buildPickedRows rows budget cap).take n) ≤
      budget + eps) := by
  have hSI := pickStartingXI_inv rows budget cap squadRules
    startingFormation hb
  have hBI := pickBench_inv rows hSI squadRules
  have htot : costSum (buildPickedRows rows budget cap) ≤ budget + eps := by
    have h1 := hBI.rem_eq
    have h2 := hBI.rem_ge
    unfold buildPickedRows
    unfold BenchInv at h1 h2
    linarith [h1, h2]
  constructor
  · intro n
    have hstep : (buildPickedRows rows budget cap).take n =
        ((buildPickedRows rows budget cap).take (n + 1)).take n := by
      rw [List.take_take]
      congr 1
      omega
    rw [hstep]
    exact costSum_take_le _ n
  · intro n
    exact le_trans (costSum_take_le _ n) htot

theorem budget_invariant_witness :
    costSum ((buildPickedRows demoPool 100 3).take 7) ≤
      costSum ((buildPickedRows demoPool 100 3).take 8) ∧
    costSum ((buildPickedRows demoPool 100 3).take 7) ≤ 100 + eps :=
  ⟨(budget_invariant demoPool 100 3 (by with_unfolding_all decide)).1 7,
    (budget_invariant demoPool 100 3 (by with_unfolding_all decide)).2 7⟩

/-- C5 counterexample: the claim "two runs of recommend_squad produce
bit-identical output" is false on the code, because every response embeds
`generated_at = datetime.now(...)`: two runs of the same pool and request at
different times differ. -/
theorem determinism_counterexample :
    recommendSquad [] 100 3 ("2025-01-01T00:00:00+00:00") ≠
      recommendSquad [] 100 3 ("2025-01-01T00:00:01+00:00") := by
  intro h
  have h2 := congrArg Response.generatedAt h
  simp only [recommendSquad] at h2
  exact absurd h2 (by decide)

/-- C5 amended (Determinism modulo the timestamp): for a fixed candidate
pool and identical request parameters, two runs agree on everything except
`generated_at`; the full outputs are bit-identical exactly when the two
timestamps coincide.  There is no other hidden nondeterminism. -/
theorem determinism_modulo_timestamp (rows : List Candidate) (budget : ℚ)
    (cap : ℕ) (t1 t2 : String) :
    (recommendSquad rows budget cap t1).body =
      (recommendSquad rows budget cap t2).body ∧
    (recommendSquad rows budget cap t1 = recommendSquad rows budget cap t2 ↔
      t1 = t2) := by
  refine ⟨rfl, ?_, ?_⟩
  · intro h
    exact congrArg Response.generatedAt h
  · intro h
    rw [h]

/-- C6 counterexample: "points" sorting does NOT break predicted-point ties
by descending cost: two equal-point defenders costing 8.0m (id 1) and 5.0m
(id 2) come out cheaper-first, violating the claimed descending-cost order
(which would also have to order team id and player id descending). -/
theorem strategyA_counterexample :
    ¬ ((sortBucket [⟨1, 1, "DEF", 80, 5⟩, ⟨2, 2, "DEF", 50, 5⟩]
      OrderBy.points).Pairwise specPointsBefore) := by
  with_unfolding_all decide

/-- C6 amended (Strategy A ranking order): sorting "by score" orders every
bucket by descending predicted score, with ties broken by ascending cost,
then ascending affiliation (team) id, then ascending candidate (player) id
— a deterministic total preorder on the sort keys — and returns a
permutation of the bucket. -/
theorem strategyA_order (bucket : List Candidate) :
    (sortBucket bucket OrderBy.points).Pairwise codePointsBefore ∧
    (sortBucket bucket OrderBy.points).Perm bucket := by
  constructor
  · have h := List.sorted_mergeSort pointsLeB_trans pointsLeB_total bucket
    refine h.imp ?_
    intro a b hab
    simpa only [codePointsBefore, pointsLeB, decide_eq_true_eq] using hab
  · exact sortBucket_perm bucket OrderBy.points

/-- C7 (InsufficientCandidates fail-fast): whenever some role's raw bucket
count (after filters, before any allocation) is below its quota, the
response is the insufficient-candidates error carrying the per-role
candidate counts, its missing list names exactly the deficient roles with
their need and have counts, and no starting or bench picking is attempted
(the response is built from the raw counts alone). -/
theorem insufficient_failfast (rows : List Candidate) (budget : ℚ)
    (cap : ℕ)
    (hmiss : ∃ p : Pos, (buildCandidateBuckets rows p).length < squadRules p) :
    recommendBody rows budget cap =
      ResponseBody.insufficient
        ((allPos.filter fun p =>
            decide ((buildCandidateBuckets rows p).length < squadRules p)).map
          fun p => (p, squadRules p, (buildCandidateBuckets rows p).length))
        (allPos.map fun p => (p, (buildCandidateBuckets rows p).length)) ∧
    (∀ p : Pos,
      (p, squadRules p, (buildCandidateBuckets rows p).length) ∈
        ((allPos.filter fun p =>
            decide ((buildCandidateBuckets rows p).length < squadRules p)).map
          fun p => (p, squadRules p, (buildCandidateBuckets rows p).length)) ↔
      (buildCandidateBuckets rows p).length < squadRules p) := by
  constructor
  · unfold recommendBody
    dsimp only
    rw [if_neg]
    obtain ⟨p, hp⟩ := hmiss
    apply List.ne_nil_of_mem
    exact List.mem_filter.2 ⟨mem_allPos p, by simpa using hp⟩
  · intro p
    constructor
    · intro hmem
      obtain ⟨q, hq, heq⟩ := List.mem_map.1 hmem
      obtain ⟨rfl, -, -⟩ : q = p ∧ squadRules q = squadRules p ∧
          (buildCandidateBuckets rows q).length =
            (buildCandidateBuckets rows p).length := by
        simpa using heq
      have := (List.mem_filter.1 hq).2
      simpa using this
    · intro hp
      exact List.mem_map_of_mem _
        (List.mem_filter.2 ⟨mem_allPos p, by simpa using hp⟩)

theorem insufficient_failfast_witness :
    (∃ p : Pos, (buildCandidateBuckets [] p).length < squadRules p) ∧
    recommendBody [] 100 3 =
      ResponseBody.insufficient
        ((allPos.filter fun p =>
            decide ((buildCandidateBuckets [] p).length < squadRules p)).map
          fun p => (p, squadRules p, (buildCandidateBuckets [] p).length))
        (allPos.map fun p => (p, (buildCandidateBuckets [] p).length)) ∧
    ((Pos.GKP, squadRules Pos.GKP,
        (buildCandidateBuckets [] Pos.GKP).length) ∈
      ((allPos.filter fun p =>
          decide ((buildCandidateBuckets [] p).length < squadRules p)).map
        fun p => (p, squadRules p, (buildCandidateBuckets [] p).length)) ↔
      (buildCandidateBuckets [] Pos.GKP).length < squadRules Pos.GKP) :=
  ⟨⟨Pos.GKP, by decide⟩,
    (insufficient_failfast [] 100 3 ⟨Pos.GKP, by decide⟩).1,
    (insufficient_failfast [] 100 3 ⟨Pos.GKP, by decide⟩).2 Pos.GKP⟩

/-- C8 (Bench-list shape): in every successful 15-candidate build the bench
list has exactly 4 entries; its first entry is the first bench goalkeeper
whenever one exists; and it equals the (at most one) bench goalkeeper
followed by the outfield bench players in DEF, MID, FWD priority order,
truncated so that the total is exactly 4. -/
theorem bench_shape (rows : List Candidate) (budget : ℚ) (cap : ℕ)
    (body : SuccessBody) (hb : 0 ≤ budget)
    (h : recommendBody rows budget cap = ResponseBody.success body) :
    body.benchList.length = 4 ∧
    (∀ g gs, body.benchGKP = g :: gs → body.benchList.head? = some g) ∧
    body.benchList = body.benchGKP.take 1 ++
      (body.benchDEF ++ body.benchMID ++ body.benchFWD).take
        (4 - (body.benchGKP.take 1).length) := by
  obtain ⟨s, b, stF, remF, hbody, hinv, hlen, hcs, hca⟩ :=
    recommendBody_success hb h
  subst hbody
  have hbcnt : ∀ p, countPos b p = squadRules p - startingFormation p := by
    intro p
    have e := hca p
    rw [countPos_append, hcs p] at e
    omega
  have hgk : (groupByPosition b Pos.GKP).length = 1 := by
    have := hbcnt Pos.GKP
    simpa [countPos, groupByPosition, squadRules, startingFormation] using this
  have hdef : (groupByPosition b Pos.DEF).length = 2 := by
    have := hbcnt Pos.DEF
    simpa [countPos, groupByPosition, squadRules, startingFormation] using this
  have hmid : (groupByPosition b Pos.MID).length = 1 := by
    have := hbcnt Pos.MID
    simpa [countPos, groupByPosition, squadRules, startingFormation] using this
  have hfwd : (groupByPosition b Pos.FWD).length = 0 := by
    have := hbcnt Pos.FWD
    simpa [countPos, groupByPosition, squadRules, startingFormation] using this
  refine ⟨?_, ?_, rfl⟩
  · simp only [mkSuccessBody, buildBenchList, List.length_append,
      List.length_take, hgk, hdef, hmid, hfwd]
    omega
  · intro g gs hgkEq
    simp only [mkSuccessBody] at hgkEq
    simp [mkSuccessBody, buildBenchList, hgkEq, List.take_succ_cons]

theorem bench_shape_witness :
    demoBody.benchList.length = 4 ∧
    demoBody.benchList = demoBody.benchGKP.take 1 ++
      (demoBody.benchDEF ++ demoBody.benchMID ++ demoBody.benchFWD).take
        (4 - (demoBody.benchGKP.take 1).length) :=
  ⟨(bench_shape demoPool 100 3 demoBody (by with_unfolding_all decide)
      demo_success).1,
    (bench_shape demoPool 100 3 demoBody (by with_unfolding_all decide)
      demo_success).2.2⟩

/-- C9 (Rollback atomicity of a pick attempt): when `_try_pick_one` picks
nothing, the four state mappings are exactly as before the call; when it
picks a candidate, exactly that candidate's id is added to the selected set,
its team count is incremented by one, its position's total count (and, in
the starting phase, its starting count) is incremented by one, and every
other entry is unchanged. -/
theorem pick_rollback_atomicity (pos : Pos) (orderedBucket : List Candidate)
    (st : SelState) (cap : ℕ) (rb : ℚ) (totReq : Pos → ℕ)
    (srOpt : Option (Pos → ℕ)) (bucketsAll : Pos → List Candidate) :
    (∀ st1 err, tryPickOne pos orderedBucket st cap rb totReq srOpt
        bucketsAll = (none, st1, err) →
      st1.selected = st.selected ∧
        (∀ t, st1.teamCounts t = st.teamCounts t) ∧
        (∀ q, st1.totalHave q = st.totalHave q) ∧
        (∀ q, st1.startingHave q = st.startingHave q)) ∧
    (∀ c st1 err, tryPickOne pos orderedBucket st cap rb totReq srOpt
        bucketsAll = (some c, st1, err) →
      c.id ∉ st.selected ∧
        (∀ x, x ∈ st1.selected ↔ x = c.id ∨ x ∈ st.selected) ∧
        st1.teamCounts c.teamId = st.teamCounts c.teamId + 1 ∧
        (∀ t, t ≠ c.teamId → st1.teamCounts t = st.teamCounts t) ∧
        st1.totalHave pos = st.totalHave pos + 1 ∧
        (∀ q, q ≠ pos → st1.totalHave q = st.totalHave q) ∧
        (srOpt.isSome = true →
          st1.startingHave pos = st.startingHave pos + 1 ∧
          ∀ q, q ≠ pos → st1.startingHave q = st.startingHave q) ∧
        (srOpt = none → ∀ q, st1.startingHave q = st.startingHave q)) := by
  constructor
  · intro st1 err h
    have heq := tryPickOne_none pos orderedBucket st cap rb totReq srOpt
      bucketsAll st1 err h
    subst heq
    exact ⟨rfl, fun _ => rfl, fun _ => rfl, fun _ => rfl⟩
  · intro c st1 err h
    obtain ⟨-, -, -, hid, -, -, hcommit⟩ :=
      tryPickOne_some pos orderedBucket st cap rb totReq srOpt bucketsAll
        c st1 err h
    subst hcommit
    refine ⟨hid, ?_, ?_, ?_, ?_, ?_, ?_, ?_⟩
    · intro x
      simp [commitPick]
    · simp [commitPick, Function.update_same]
    · intro t ht
      simp [commitPick, Function.update_apply, ht]
    · simp [commitPick, Function.update_same]
    · intro q hq
      simp [commitPick, Function.update_apply, hq]
    · intro hsome
      refine ⟨?_, ?_⟩
      · simp [commitPick, hsome, Function.update_same]
      · intro q hq
        simp [commitPick, hsome, Function.update_apply, hq]
    · intro hnone
      subst hnone
      intro q
      simp [commitPick, Option.isSome]

theorem pick_rollback_atomicity_witness :
    (⟨1, 1, "GKP", 50, 5⟩ : Candidate).id ∉ demoSt0.selected ∧
    (commitPick demoSt0 Pos.GKP ⟨1, 1, "GKP", 50, 5⟩ false).teamCounts 1 =
      demoSt0.teamCounts 1 + 1 ∧
    (commitPick demoSt0 Pos.GKP ⟨1, 1, "GKP", 50, 5⟩ false).totalHave
      Pos.GKP = demoSt0.totalHave Pos.GKP + 1 := by
  have happ : tryPickOne Pos.GKP [⟨1, 1, "GKP", 50, 5⟩] demoSt0 3 100
      squadRules none demoBuckets =
      (some ⟨1, 1, "GKP", 50, 5⟩,
        commitPick demoSt0 Pos.GKP ⟨1, 1, "GKP", 50, 5⟩ false, none) := by
    with_unfolding_all rfl
  have hfacts := (pick_rollback_atomicity Pos.GKP [⟨1, 1, "GKP", 50, 5⟩]
    demoSt0 3 100 squadRules none demoBuckets).2 ⟨1, 1, "GKP", 50, 5⟩
    (commitPick demoSt0 Pos.GKP ⟨1, 1, "GKP", 50, 5⟩ false) none happ
  exact ⟨hfacts.1, hfacts.2.2.1, hfacts.2.2.2.2.1⟩

theorem mem_flattenGrouped {c : Candidate} {l : List Candidate}
    (h : c ∈ flattenGrouped l) : c ∈ l := by
  simp only [flattenGrouped, groupByPosition, List.mem_append,
    List.mem_filter] at h
  tauto

theorem mem_buildBenchList {c : Candidate} {gk d m f : List Candidate}
    (h : c ∈ buildBenchList gk d m f) : c ∈ gk ∨ c ∈ d ∨ c ∈ m ∨ c ∈ f := by
  simp only [buildBenchList, List.mem_append] at h
  rcases h with h | h
  · exact Or.inl (List.mem_of_mem_take h)
  · have := List.mem_of_mem_take h
    simp only [List.mem_append] at this
    tauto

theorem mem_tagRole {role : String} {x : String × ℕ × Candidate}
    {items : List Candidate} (h : x ∈ tagRole role items) :
    x.2.2 ∈ items := by
  unfold tagRole at h
  obtain ⟨⟨i, c⟩, hmem, rfl⟩ := List.mem_map.1 h
  have : c ∈ items.enum.map Prod.snd := List.mem_map_of_mem Prod.snd hmem
  rwa [List.enum_map_snd] at this

/-- C10 (Unknown-role candidates are silently dropped): a row lands in the
bucket of role p exactly when its position string is p's, a row whose
position matches none of GKP, DEF, MID, FWD lands in no bucket and is
dropped without error, and consequently every candidate in a successful
build output carries one of the four role strings. -/
theorem bucket_placement :
    (∀ (rows : List Candidate) (c : Candidate) (p : Pos),
      c ∈ buildCandidateBuckets rows p ↔ c ∈ rows ∧ c.position = posStr p) ∧
    (∀ (rows : List Candidate) (c : Candidate), c ∈ rows →
      (∀ q : Pos, c.position ≠ posStr q) →
      ∀ p : Pos, c ∉ buildCandidateBuckets rows p) ∧
    (∀ (rows : List Candidate) (budget : ℚ) (cap : ℕ) (body : SuccessBody),
      0 ≤ budget → recommendBody rows budget cap = ResponseBody.success body →
      ∀ x ∈ body.squadList, ∃ p : Pos, x.2.2.position = posStr p) := by
  refine ⟨?_, ?_, ?_⟩
  · intro rows c p
    simp [buildCandidateBuckets, List.mem_filter]
  · intro rows c hc hno p hmem
    simp only [buildCandidateBuckets, List.mem_filter,
      decide_eq_true_eq] at hmem
    exact hno p hmem.2
  · intro rows budget cap body hb h x hx
    obtain ⟨s, b, stF, remF, hbody, hinv, -, -, -⟩ :=
      recommendBody_success hb h
    subst hbody
    simp only [mkSuccessBody, List.mem_append] at hx
    rcases hx with hx | hx
    · exact hinv.pos_valid x.2.2
        (List.mem_append_left _ (mem_flattenGrouped (mem_tagRole hx)))
    · have hb2 := mem_buildBenchList (mem_tagRole hx)
      have : x.2.2 ∈ b := by
        rcases hb2 with h2 | h2 | h2 | h2 <;>
          exact (List.mem_filter.1 h2).1
      exact hinv.pos_valid x.2.2 (List.mem_append_right _ this)

theorem bucket_placement_witness :
    (⟨1, 1, "GKP", 50, 5⟩ : Candidate) ∈ buildCandidateBuckets demoPool
      Pos.GKP ∧
    (∀ x ∈ demoBody.squadList, ∃ p : Pos, x.2.2.position = posStr p) :=
  ⟨(bucket_placement.1 demoPool ⟨1, 1, "GKP", 50, 5⟩ Pos.GKP).2
      ⟨by decide, rfl⟩,
    bucket_placement.2.2 demoPool 100 3 demoBody
      (by with_unfolding_all decide) demo_success⟩

end FplRec
